import Mathlib

/-!
Verification development for the docx conversion repository's pure core:
the DOCX split tool (`src/utils/docx_split.py`) and the header/footer
extraction/transplant tool (`src/bf/docx_header_footer_replace.py`).

Python strings are embedded as `List Char` (Python strings are sequences
of code points, exactly like `List Char`; Python slicing and `len` agree
with `List.take`/`List.drop`/`List.length` under this embedding).
XML parts are embedded as structured values; the correspondence between
each structure and the raw markup the Python code scans with regular
expressions or `lxml` xpath queries is recorded in the doc comment of
the embedding definition concerned.
-/

namespace DocConv

/-- A Python string: a sequence of code points. -/
abbrev PyStr := List Char

/-- Python whitespace test used by `str.strip`, `str.split` and the `\s`
regex class (restricted to the ASCII whitespace characters, which are the
only ones that occur in the repository's data). -/
def isPySpace (c : Char) : Bool :=
  c = ' ' || c = '\t' || c = '\n' || c = '\r' || c = '\x0b' || c = '\x0c'

/-- Python `str.strip()` with no argument: remove leading and trailing
whitespace. -/
def pyStrip (s : PyStr) : PyStr :=
  ((s.dropWhile isPySpace).reverse.dropWhile isPySpace).reverse

/-- Helper for `splitWs`: accumulates the current (reversed) token. -/
def splitWsAux : PyStr → PyStr → List PyStr
  | [], cur => if cur = [] then [] else [cur.reverse]
  | c :: rest, cur =>
    if isPySpace c then
      if cur = [] then splitWsAux rest []
      else cur.reverse :: splitWsAux rest []
    else splitWsAux rest (c :: cur)

/-- Python `str.split()` with no argument: split on whitespace runs,
discarding empty tokens. -/
def splitWs (s : PyStr) : List PyStr := splitWsAux s []

/-- Helper for `splitOnChar`: accumulates the current (reversed) piece. -/
def splitOnCharAux (sep : Char) : PyStr → PyStr → List PyStr
  | [], cur => [cur.reverse]
  | c :: rest, cur =>
    if c = sep then cur.reverse :: splitOnCharAux sep rest []
    else splitOnCharAux sep rest (c :: cur)

/-- Python `str.split(sep)` with a one-character separator: keeps empty
pieces, always returns at least one piece. -/
def splitOnChar (sep : Char) (s : PyStr) : List PyStr := splitOnCharAux sep s []

/-- `needle.isPrefixOf hay` on `List Char`, as a Bool. -/
def pfxOf : PyStr → PyStr → Bool
  | [], _ => true
  | _ :: _, [] => false
  | a :: as, b :: bs => a = b && pfxOf as bs

/-- Python substring containment `needle in hay` (empty needle is
contained in everything, as in Python). -/
def containsSub (needle : PyStr) : PyStr → Bool
  | [] => pfxOf needle []
  | c :: rest => pfxOf needle (c :: rest) || containsSub needle rest

/-- Python sequence indexing `l[i]`: non-negative indices from the front,
negative indices from the back, `none` when out of range (models the
`IndexError` case). -/
def pyGet {α : Type} (l : List α) (i : Int) : Option α :=
  if 0 ≤ i then l.get? i.toNat
  else if (-i).toNat ≤ l.length then l.get? (l.length - (-i).toNat)
  else none

/-- First-match association lookup, modelling Python `dict[key]` /
`key in dict` over the in-memory `files` dictionaries (keys are unique
in practice, so first-match agrees with dict semantics). -/
def lookupA {α : Type} : List (PyStr × α) → PyStr → Option α
  | [], _ => none
  | (k, v) :: rest, key => if k = key then some v else lookupA rest key

/-- Association update, modelling Python `dict[key] = value`: replace the
first binding of `key` in place, or append a new binding at the end. -/
def setA {α : Type} : List (PyStr × α) → PyStr → α → List (PyStr × α)
  | [], key, v => [(key, v)]
  | (k, w) :: rest, key, v =>
    if k = key then (k, v) :: rest else (k, w) :: setA rest key v

/-! ## Header/footer parts (`src/bf/docx_header_footer_replace.py`)

A header/footer XML part is embedded as the sequence of its paragraphs in
document order (the `.//w:p` xpath axis); each paragraph carries its
optional paragraph-properties element (`./w:pPr`, reduced to the
alignment value `./w:jc/@w:val` and the serialized tab-stop definitions
`./w:tabs`, the only two pieces of `pPr` the code reads or writes) and
its runs in document order (the `.//w:r` axis).  A run is the sequence
of its child elements in document order; the code only distinguishes
`w:tab`, `w:ptab`, `w:br`, `w:t` (with its optional text node),
`w:instrText` (with its optional text node) and `w:fldChar` elements,
so those are the constructors. -/

/-- A child element of a run. -/
inductive RunChild : Type
  | tab
  | ptab
  | br
  | txt (s : Option PyStr)
  | instrText (s : Option PyStr)
  | fldChar (kind : PyStr)
  deriving DecidableEq, Repr

/-- A run (`w:r`): its children in document order. -/
structure Run : Type where
  children : List RunChild
  deriving DecidableEq, Repr

/-- The paragraph-properties data the code reads and writes:
`w:jc/@w:val` and the serialized `w:tabs` element. -/
structure PPr : Type where
  jc : Option PyStr
  tabs : Option PyStr
  deriving DecidableEq, Repr

/-- A paragraph (`w:p`): optional properties and its runs. -/
structure Para : Type where
  ppr : Option PPr
  runs : List Run
  deriving DecidableEq, Repr

/-- A header or footer XML part: its paragraphs in document order. -/
structure HFPart : Type where
  paras : List Para
  deriving DecidableEq, Repr

/-- Number of `w:tab` descendants of a run (the `.//w:tab` query at
line 139 of `docx_header_footer_replace.py`). -/
def runTabs (r : Run) : Nat :=
  r.children.countP fun c => c = RunChild.tab

/-- Number of `w:ptab` descendants of a run (the `.//w:ptab` query at
line 206). -/
def runPtabs (r : Run) : Nat :=
  r.children.countP fun c => c = RunChild.ptab

/-- Number of `w:br` descendants of a run (the `.//w:br` query at
line 149). -/
def runBrs (r : Run) : Nat :=
  r.children.countP fun c => c = RunChild.br

/-- Is a run child a `w:t` element? -/
def isTxtChild : RunChild → Bool
  | RunChild.txt _ => true
  | _ => false

/-- The truthy texts of the `w:t` descendants of a run, in document
order, concatenated: lines 144-146 of `docx_header_footer_replace.py`
append `t_elem.text` for each `w:t` whose text is truthy (neither `None`
nor the empty string). -/
def runTexts (r : Run) : PyStr :=
  (r.children.map fun c =>
    match c with
    | RunChild.txt (some s) => if s = [] then [] else s
    | _ => []).flatten

/-- Does the run contain any `w:t` element (`.//w:t`, line 233/239)? -/
def runHasTxt (r : Run) : Bool := r.children.any isTxtChild

/-- One run's contribution to `extract_formatted_content`
(lines 137-151): first one `"\t"` per `w:tab`, then each truthy `w:t`
text, then one `"\n"` per `w:br` — the three xpath queries are issued in
that order, so within one run tabs always precede texts, which precede
breaks, regardless of the children's document order. -/
def runFormatted (r : Run) : PyStr :=
  List.replicate (runTabs r) '\t' ++ runTexts r ++ List.replicate (runBrs r) '\n'

/-- A paragraph's reconstructed text in `extract_formatted_content`:
the concatenation of its runs' contributions. -/
def paraFormatted (p : Para) : PyStr :=
  (p.runs.map runFormatted).flatten

/-- `"\n".join`: join pieces with a single newline between them. -/
def joinNl : List PyStr → PyStr
  | [] => []
  | [x] => x
  | x :: rest => x ++ '\n' :: joinNl rest

/-- `extract_formatted_content(root, nsmap)` (lines 119-157): every
paragraph's reconstructed text, joined by `"\n"`. -/
def extractFormattedContent (part : HFPart) : PyStr :=
  joinNl (part.paras.map paraFormatted)

/-- The part-splitting loop of `replace_formatted_content`
(lines 184-194): cut one line at tab characters, keeping a literal
`"\t"` token for each tab and the (possibly empty) text pieces between
them.  The second argument is the reversed current piece. -/
def buildPartsAux : PyStr → PyStr → List PyStr
  | [], cur => [cur.reverse]
  | c :: rest, cur =>
    if c = '\t' then cur.reverse :: ['\t'] :: buildPartsAux rest []
    else buildPartsAux rest (c :: cur)

/-- `parts` as built for one line in `replace_formatted_content`. -/
def buildParts (line : PyStr) : List PyStr := buildPartsAux line []

/-- The page-field test of lines 209-216: for each `w:t` descendant of
the run, walk its ancestors looking for a `w:instrText` element whose
text contains `"PAGE"`.  A `w:t` element's ancestors inside a run are
the run, the paragraph and the part root — `w:instrText` carries
character data and never elements, so it is never an ancestor of a
`w:t`, and the test is constantly false.  It is kept as a definition so
the control flow of the translation matches the source. -/
def isInPageField (_ : Run) : Bool := false

/-- Does the run contain a `w:tab` or `w:ptab` element
(lines 205-206)? -/
def runHasTabOrPtab (r : Run) : Bool := runTabs r ≠ 0 || runPtabs r ≠ 0

/-- Number of leading entries of a `parts` suffix that are not the tab
token: the `while parts[part_index] != '\t'` advance of lines 223-224. -/
def countNonTab : List PyStr → Nat
  | [] => 0
  | p :: rest => if p = ['\t'] then 0 else countNonTab rest + 1

/-- Number of leading tab tokens of a `parts` suffix: the
`while parts[part_index] == '\t'` advance of lines 242-243. -/
def countTabs : List PyStr → Nat
  | [] => 0
  | p :: rest => if p = ['\t'] then countTabs rest + 1 else 0

/-- Remove all `w:t` descendants of a run (lines 233-235). -/
def removeTxts (r : Run) : Run :=
  ⟨r.children.filter fun c => !isTxtChild c⟩

/-- Overwrite the text of the run's first `w:t` element
(`t_elems[0].text = ...`, line 247 / line 251); later `w:t` elements in
the same run keep their text. -/
def setFirstTxtAux (s : PyStr) : List RunChild → List RunChild
  | [] => []
  | c :: rest =>
    if isTxtChild c then RunChild.txt (some s) :: rest
    else c :: setFirstTxtAux s rest

/-- Run with its first `w:t` text overwritten. -/
def setFirstTxt (r : Run) (s : PyStr) : Run := ⟨setFirstTxtAux s r.children⟩

/-- Append a plain `w:tab` child (`etree.SubElement(..., "w:tab")`,
line 231; unreachable in context, kept for fidelity). -/
def addTab (r : Run) : Run := ⟨r.children ++ [RunChild.tab]⟩

/-- One iteration of the run loop of `replace_formatted_content`
(lines 203-251): given the `parts` list and the current `part_index`,
returns the rewritten run and the new `part_index`. -/
def processRun (parts : List PyStr) (pi : Nat) (r : Run) : Run × Nat :=
  if isInPageField r then (r, pi)
  else if runHasTabOrPtab r then
    let pi1 := pi + countNonTab (parts.drop pi)
    if pi1 < parts.length then
      let r1 := if !runHasTabOrPtab r then addTab r else r
      (removeTxts r1, pi1 + 1)
    else (r, pi1)
  else
    if runHasTxt r && pi < parts.length then
      let pi2 := pi + countTabs (parts.drop pi)
      if h : pi2 < parts.length then (setFirstTxt r (parts.get ⟨pi2, h⟩), pi2 + 1)
      else (r, pi2)
    else if runHasTxt r then (setFirstTxt r [], pi)
    else (r, pi)

/-- The run loop over a paragraph's runs, threading `part_index`. -/
def processRuns (parts : List PyStr) : Nat → List Run → List Run
  | _, [] => []
  | pi, r :: rest =>
    let rp := processRun parts pi r
    rp.1 :: processRuns parts rp.2 rest

/-- The per-paragraph body of `replace_formatted_content`
(lines 176-251): rebuild the paragraph's runs against the `parts` of its
line. -/
def replacePara (line : PyStr) (p : Para) : Para :=
  { p with runs := processRuns (buildParts line) 0 p.runs }

/-- The paragraph loop of `replace_formatted_content`: paragraph `i`
is rewritten against line `i`; paragraphs beyond the number of lines are
left untouched (`break` at line 178), extra lines are dropped. -/
def replaceParas : List PyStr → List Para → List Para
  | _, [] => []
  | [], ps => ps
  | line :: ls, p :: ps => replacePara line p :: replaceParas ls ps

/-- `replace_formatted_content(root, new_content, nsmap)`
(lines 160-251): split the new content into lines at `"\n"` and rewrite
each paragraph against its line. -/
def replaceFormattedContent (part : HFPart) (newContent : PyStr) : HFPart :=
  ⟨replaceParas (splitOnChar '\n' newContent) part.paras⟩

/-! ## Containers and section resolution
(`src/bf/docx_header_footer_replace.py`, container level)

A container (an unzipped docx held as the in-memory `files` dict) maps
part names to parts.  The parts the code reads are embedded as typed
values: the main document (reduced to its `w:sectPr` elements in
document order, each reduced to its `w:headerReference` /
`w:footerReference` children), the relationships part (a list of
`Relationship` entries), and header/footer parts; any other part is an
opaque byte blob. -/

/-- A `w:headerReference` / `w:footerReference` element: relationship id
and optional `w:type` attribute. -/
structure HFRef : Type where
  rid : PyStr
  rtype : Option PyStr
  deriving DecidableEq, Repr

/-- The `w:type` attribute with the `"default"` fallback
(`href.get(..., "default")`, line 68). -/
def refType (ref : HFRef) : PyStr := ref.rtype.getD "default".toList

/-- A `w:sectPr` element, reduced to its header/footer references. -/
structure SectPr : Type where
  headerRefs : List HFRef
  footerRefs : List HFRef
  deriving DecidableEq, Repr

/-- The main document part, reduced to its sections
(the `.//w:sectPr` query, line 45). -/
structure DocumentXml : Type where
  sects : List SectPr
  deriving DecidableEq, Repr

/-- One `Relationship` element of the rels part. -/
structure Rel : Type where
  id : PyStr
  target : PyStr
  deriving DecidableEq, Repr

/-- A container part. -/
inductive Part : Type
  | doc (d : DocumentXml)
  | rels (rs : List Rel)
  | hf (h : HFPart)
  | blob (b : PyStr)
  deriving DecidableEq, Repr

/-- A container: part name to part, in archive order. -/
abbrev Container := List (PyStr × Part)

/-- The main document part name. -/
def docName : PyStr := "word/document.xml".toList

/-- The document relationships part name. -/
def relsName : PyStr := "word/_rels/document.xml.rels".toList

/-- Resolve a relationship id to a part name (lines 71-77): if the rels
part exists, find the first `Relationship` with that `Id` and prefix its
`Target` with `"word/"`; otherwise no resolution. -/
def resolveTarget (files : Container) (rid : PyStr) : Option PyStr :=
  match lookupA files relsName with
  | some (Part.rels rs) =>
    match rs.find? fun r => r.id = rid with
    | some r => some ("word/".toList ++ r.target)
    | none => none
  | _ => none

/-- Fetch a header/footer part by name (`if header_file in files`,
line 78, followed by parsing it as a header/footer document). -/
def getHF (files : Container) (name : PyStr) : Option HFPart :=
  match lookupA files name with
  | some (Part.hf h) => some h
  | _ => none

/-- The header extraction loop of `extract_header_footer_content`
(lines 66-88): for each header reference, resolve and read the header
part (skipping the reference when resolution misses); reconstruct its
formatted content, then take `parts = content.strip().split()` and store
`parts[0] + "\t" + parts[1]` under the reference's type — raising
`IndexError` (modelled as `Except.error`) when there are fewer than two
whitespace-separated tokens. -/
def extractHeadersAux (files : Container) :
    List HFRef → List (PyStr × PyStr) → Except PyStr (List (PyStr × PyStr))
  | [], acc => Except.ok acc
  | ref :: rest, acc =>
    match (resolveTarget files ref.rid).bind (getHF files) with
    | none => extractHeadersAux files rest acc
    | some h =>
      match splitWs (pyStrip (extractFormattedContent h)) with
      | t0 :: t1 :: _ =>
        extractHeadersAux files rest (setA acc (refType ref) (t0 ++ '\t' :: t1))
      | _ => Except.error "IndexError: list index out of range".toList

/-- The footer extraction loop (lines 91-109): same resolution, but the
full formatted content string is stored, with no token manipulation. -/
def extractFootersAux (files : Container) :
    List HFRef → List (PyStr × PyStr) → List (PyStr × PyStr)
  | [], acc => acc
  | ref :: rest, acc =>
    match (resolveTarget files ref.rid).bind (getHF files) with
    | none => extractFootersAux files rest acc
    | some h =>
      extractFootersAux files rest (setA acc (refType ref) (extractFormattedContent h))

/-- The result dictionary of `extract_header_footer_content`. -/
structure ExtractResult : Type where
  headers : List (PyStr × PyStr)
  footers : List (PyStr × PyStr)
  deriving DecidableEq, Repr

/-- `extract_header_footer_content(docx_path, section_index)`
(lines 22-116) on the unzipped container: locate the section (raising
`ValueError` when the document has fewer sections than requested, and
an index error on the empty-sections/zero-index edge of `sects[-1]`),
then run the header and footer extraction loops. -/
def extractHeaderFooterContent (files : Container) (sectionIndex : Nat) :
    Except PyStr ExtractResult :=
  match lookupA files docName with
  | some (Part.doc d) =>
    if d.sects.length < sectionIndex then
      Except.error "ValueError: section out of range".toList
    else
      match pyGet d.sects ((sectionIndex : Int) - 1) with
      | none => Except.error "IndexError: section index".toList
      | some sect =>
        match extractHeadersAux files sect.headerRefs [] with
        | Except.error e => Except.error e
        | Except.ok hs =>
          Except.ok ⟨hs, extractFootersAux files sect.footerRefs []⟩
  | _ => Except.error "KeyError: word/document.xml".toList

/-- The per-paragraph property snapshot taken from a source header or
footer part (lines 340-356 / 376-392): one entry per paragraph that has
a `w:pPr` element (paragraphs without one contribute no entry), holding
the alignment value and the serialized tab-stop definitions. -/
def paraProps (h : HFPart) : List PPr := h.paras.filterMap fun p => p.ppr

/-- The source property-collection loops (lines 323-356 and 359-392):
for each reference, resolve and read the part, and store its snapshot
list under the reference's type (an empty list is still stored). -/
def sourcePropsAux (files : Container) :
    List HFRef → List (PyStr × List PPr) → List (PyStr × List PPr)
  | [], acc => acc
  | ref :: rest, acc =>
    match (resolveTarget files ref.rid).bind (getHF files) with
    | none => sourcePropsAux files rest acc
    | some h => sourcePropsAux files rest (setA acc (refType ref) (paraProps h))

/-- Apply one snapshot entry to one paragraph's properties
(lines 423-450 / 483-510): a recorded alignment overwrites (or creates)
the target's `w:jc`; recorded tab stops replace the target's `w:tabs`;
absent snapshot components leave the target component untouched. -/
def applyProp (sp : PPr) (old : PPr) : PPr :=
  { jc := match sp.jc with
      | some v => some v
      | none => old.jc
    tabs := match sp.tabs with
      | some t => some t
      | none => old.tabs }

/-- The property application loop over a target part's paragraphs
(lines 421-450 / 481-510): paragraph `j` receives snapshot entry `j`
when it exists; paragraphs beyond the snapshot, and paragraphs without
their own `w:pPr` element, are left untouched. -/
def applyPropsAux : List PPr → List Para → List Para
  | _, [] => []
  | [], ps => ps
  | sp :: sps, p :: ps =>
    (match p.ppr with
     | some old => { p with ppr := some (applyProp sp old) }
     | none => p) :: applyPropsAux sps ps

/-- Apply a snapshot list to a target header/footer part. -/
def applyProps (sps : List PPr) (h : HFPart) : HFPart := ⟨applyPropsAux sps h.paras⟩

/-- The injection loop of `replace_header_footer_content`
(lines 395-452 for headers, 455-512 for footers; the two loops are
identical up to which reference list, content map and snapshot map they
receive): for each reference of the target section, resolve and read the
part from the current `files` (skipping on a resolution miss); if the
source content map has a non-empty string for the reference's type, run
`replace_formatted_content`; if the snapshot map has an entry for the
type, apply the paragraph properties; finally write the (re-serialized)
part back into `files`.  `injectedPart` is the per-part rewriting step;
`injectAux` is the loop. -/
def injectedPart (content : List (PyStr × PyStr)) (props : List (PyStr × List PPr))
    (ref : HFRef) (h : HFPart) : HFPart :=
  let h1 := match lookupA content (refType ref) with
    | some txt => if txt ≠ [] then replaceFormattedContent h txt else h
    | none => h
  match lookupA props (refType ref) with
  | some sps => applyProps sps h1
  | none => h1

/-- The loop itself, threading the `files` dictionary. -/
def injectAux (content : List (PyStr × PyStr)) (props : List (PyStr × List PPr)) :
    Container → List HFRef → Container
  | files, [] => files
  | files, ref :: rest =>
    match resolveTarget files ref.rid with
    | none => injectAux content props files rest
    | some name =>
      match getHF files name with
      | none => injectAux content props files rest
      | some h =>
        injectAux content props (setA files name (Part.hf (injectedPart content props ref h))) rest

/-- The in-memory core of `replace_header_footer_content`
(lines 254-512): extract the source section's header/footer content,
collect the source section's property snapshots, locate the target
section, and run the two injection loops over the target container.
Any raised exception (modelled as `Except.error`) reaches the
`except` handler at line 536, which makes the operation return `False`
without writing anything. -/
def replaceHFCCore (srcFiles tgtFiles : Container) (srcIdx tgtIdx : Nat) :
    Except PyStr Container :=
  match extractHeaderFooterContent srcFiles srcIdx with
  | Except.error e => Except.error e
  | Except.ok content =>
    match lookupA srcFiles docName with
    | some (Part.doc sd) =>
      if sd.sects.length < srcIdx then
        Except.error "ValueError: source section out of range".toList
      else
        match pyGet sd.sects ((srcIdx : Int) - 1) with
        | none => Except.error "IndexError: source section".toList
        | some srcSect =>
          match lookupA tgtFiles docName with
          | some (Part.doc td) =>
            if td.sects.length < tgtIdx then
              Except.error "ValueError: target section out of range".toList
            else
              match pyGet td.sects ((tgtIdx : Int) - 1) with
              | none => Except.error "IndexError: target section".toList
              | some tgtSect =>
                let hProps := sourcePropsAux srcFiles srcSect.headerRefs []
                let fProps := sourcePropsAux srcFiles srcSect.footerRefs []
                let files1 := injectAux content.headers hProps tgtFiles tgtSect.headerRefs
                Except.ok (injectAux content.footers fProps files1 tgtSect.footerRefs)
          | _ => Except.error "KeyError: target word/document.xml".toList
    | _ => Except.error "KeyError: source word/document.xml".toList

/-- A file system mapping paths to containers. -/
abbrev FileSys := List (PyStr × Container)

/-- `replace_header_footer_content(source, target, si, ti, save_path)`
at the file-system level (lines 254-540): read both containers, run the
in-memory core, and on success write the rewritten target container to
`save_path` — or, when `save_path` is the empty string, overwrite the
target path itself (`output_path = save_path if save_path else
target_docx_path`, line 515; the old file is removed and rewritten,
lines 520-530).  On any failure the function returns `False` and the
file system is untouched. -/
def replaceHeaderFooterContentFS (fs : FileSys) (srcPath tgtPath : PyStr)
    (srcIdx tgtIdx : Nat) (savePath : PyStr) : FileSys × Bool :=
  match lookupA fs srcPath with
  | none => (fs, false)
  | some srcFiles =>
    match lookupA fs tgtPath with
    | none => (fs, false)
    | some tgtFiles =>
      match replaceHFCCore srcFiles tgtFiles srcIdx tgtIdx with
      | Except.error _ => (fs, false)
      | Except.ok outFiles =>
        let outputPath := if savePath ≠ [] then savePath else tgtPath
        (setA fs outputPath outFiles, true)

/-! ## Document splitting (`src/utils/docx_split.py`)

The split tool reads `word/document.xml` as a raw string and scans it
with the alternation of the five element patterns `<w:p[^>]*>.*?</w:p>`,
`<w:tbl[^>]*>.*?</w:tbl>`, `<w:sectPr[^>]*>.*?</w:sectPr>`,
`<w:bookmarkStart[^>]*/>`, `<w:bookmarkEnd[^>]*/>` (DOTALL,
leftmost-first).  On a well-formed document whose body children are
exactly a sequence of such elements (no nesting of an element kind
within itself, which is where the non-greedy scan is exact), the scan
returns precisely those elements in order, with `start`/`end` offsets
given by cumulative rendered lengths.  The embedding therefore
represents `document.xml` as a preamble (everything through the
`<w:body...>` open tag, which the code re-finds with
`re.search(r'<w:body[^>]*>', ...)`), the body element sequence, and a
trailer (everything from `</w:body>` on); each element is structured
data with a deterministic rendering, and the element-type tagging
mirrors the `startswith` checks of lines 200-208. -/

/-- A top-level body element of `document.xml`.  A paragraph carries the
texts of its `w:t` nodes (the `re.findall(r'<w:t[^>]*>([^<]*)</w:t>')`
captures, which are `<`-free); tables and standalone section properties
carry their inner markup opaquely. -/
inductive BodyElem : Type
  | para (texts : List PyStr)
  | table (inner : PyStr)
  | sectPr (inner : PyStr)
  | bookmarkStart
  | bookmarkEnd
  deriving DecidableEq, Repr

/-- The element-type tag assigned at lines 200-208 / 278-286 by
`startswith` on the matched text. -/
inductive ElemKind : Type
  | paragraph
  | table
  | section
  | other
  deriving DecidableEq, Repr

/-- Kind of an element, as the scanner tags it. -/
def elemKind : BodyElem → ElemKind
  | BodyElem.para _ => ElemKind.paragraph
  | BodyElem.table _ => ElemKind.table
  | BodyElem.sectPr _ => ElemKind.section
  | BodyElem.bookmarkStart => ElemKind.other
  | BodyElem.bookmarkEnd => ElemKind.other

/-- The raw markup of one body element (its matched text in the scan). -/
def elemRaw : BodyElem → PyStr
  | BodyElem.para texts =>
    "<w:p>".toList
      ++ (texts.map fun t => "<w:t>".toList ++ t ++ "</w:t>".toList).flatten
      ++ "</w:p>".toList
  | BodyElem.table inner => "<w:tbl>".toList ++ inner ++ "</w:tbl>".toList
  | BodyElem.sectPr inner => "<w:sectPr>".toList ++ inner ++ "</w:sectPr>".toList
  | BodyElem.bookmarkStart => "<w:bookmarkStart/>".toList
  | BodyElem.bookmarkEnd => "<w:bookmarkEnd/>".toList

/-- The rendered body content: the elements' raw markup, adjacent in
order (the region between the body-open and body-close tags). -/
def joinRaw (es : List BodyElem) : PyStr := (es.map elemRaw).flatten

/-- Length in characters of the first `k` elements' raw markup: the
`start` offset of element `k` relative to the body-open position, and
the `end` offset of element `k-1`. -/
def rawLenPrefix : List BodyElem → Nat → Nat
  | _, 0 => 0
  | [], _ + 1 => 0
  | e :: rest, k + 1 => (elemRaw e).length + rawLenPrefix rest k

/-- A `document.xml` file: preamble through the `<w:body...>` open tag,
body elements, trailer from `</w:body>` to end of file. -/
structure SplitDoc : Type where
  preamble : PyStr
  elems : List BodyElem
  trailer : PyStr
  deriving DecidableEq, Repr

/-- The whole `doc_content` string. -/
def renderDoc (d : SplitDoc) : PyStr := d.preamble ++ joinRaw d.elems ++ d.trailer

/-- A paragraph element's text as the locator computes it
(lines 226-228 / 304-307): the `w:t` captures joined and stripped.
Only consulted for paragraph elements. -/
def paraTextOf : BodyElem → PyStr
  | BodyElem.para texts => pyStrip texts.flatten
  | _ => []

/-- `_has_page_number_pattern(text)` (lines 691-716): true when any of
the four end-anchored regexes `\.{2,}\s*\d+$`, `\s+\d+$`, `\d+$`,
`…+\s*\d+$` matches; empty text is false.  (Note the bare `\d+$`
alternative subsumes the other three.)  The call sites always pass
stripped text, so the `$`-before-trailing-newline subtlety of Python
regexes cannot arise. -/
def hasPageNumberPattern (t : PyStr) : Bool :=
  if t = [] then false
  else
    let r := t.reverse
    let digits := r.takeWhile Char.isDigit
    let afterDigits := r.dropWhile Char.isDigit
    let afterSpace := afterDigits.dropWhile isPySpace
    (digits ≠ [] && (afterSpace.takeWhile fun c => c = '.').length ≥ 2)
    || (digits ≠ [] && afterDigits.takeWhile isPySpace ≠ [])
    || digits ≠ []
    || (digits ≠ [] && (afterSpace.takeWhile fun c => c = '…') ≠ [])

/-- The TOC-marker scan shared by both locators (lines 222-233 /
301-312): the first paragraph element whose text contains any of the
keywords; `none` models the `-1` result. -/
def findTocStartAux (kws : List PyStr) : List BodyElem → Nat → Option Nat
  | [], _ => none
  | e :: rest, i =>
    if elemKind e = ElemKind.paragraph
        && kws.any fun kw => containsSub kw (paraTextOf e) then some i
    else findTocStartAux kws rest (i + 1)

/-- TOC start index over an element list. -/
def findTocStart (es : List BodyElem) (kws : List PyStr) : Option Nat :=
  findTocStartAux kws es 0

/-- `_find_split_point_cover` (lines 175-251): the split point for the
cover document is the TOC start index itself. -/
def findSplitPointCover (es : List BodyElem) (kws : List PyStr) : Option Nat :=
  findTocStart es kws

/-- The first TOC-end scan of `_find_split_point_content_no_toc`
(lines 319-353), over the elements after `toc_start` with their indices:
paragraphs matching the page-number pattern raise the consecutive
counter; empty paragraphs are skipped; a non-matching non-empty
paragraph stops the scan at `i-1` when the counter is at least 3, or
when its text exceeds 100 characters, and otherwise resets the counter;
a table stops the scan at `i-1` exactly when the counter is 0;
section-properties and bookmark elements are ignored. -/
def findTocEndLoop : List BodyElem → Nat → Nat → Option Nat
  | [], _, _ => none
  | e :: rest, i, cnt =>
    match elemKind e with
    | ElemKind.paragraph =>
      let t := paraTextOf e
      if hasPageNumberPattern t then findTocEndLoop rest (i + 1) (cnt + 1)
      else if t = [] then findTocEndLoop rest (i + 1) cnt
      else if 3 ≤ cnt then some (i - 1)
      else if 100 < t.length && !hasPageNumberPattern t then some (i - 1)
      else findTocEndLoop rest (i + 1) 0
    | ElemKind.table =>
      if 0 < cnt then findTocEndLoop rest (i + 1) cnt else some (i - 1)
    | _ => findTocEndLoop rest (i + 1) cnt

/-- The bounded second heuristic scan (lines 356-369): paragraphs with
more than 100 characters not matching the page-number pattern, within
`range(toc_start + 1, min(toc_start + 50, len(elements)))`. -/
def findTocEndHeuristic : List BodyElem → Nat → Nat → Option Nat
  | [], _, _ => none
  | e :: rest, i, lim =>
    if lim ≤ i then none
    else
      match elemKind e with
      | ElemKind.paragraph =>
        let t := paraTextOf e
        if 100 < t.length && !hasPageNumberPattern t then some (i - 1)
        else findTocEndHeuristic rest (i + 1) lim
      | _ => findTocEndHeuristic rest (i + 1) lim

/-- `_find_split_point_content_no_toc` (lines 253-382): locate the TOC
start; then the first scan, then the bounded heuristic scan, then the
default `min(toc_start + 20, len(elements) - 1)`. -/
def findSplitPointContentNoToc (es : List BodyElem) (kws : List PyStr) : Option Nat :=
  match findTocStart es kws with
  | none => none
  | some ts =>
    some (match findTocEndLoop (es.drop (ts + 1)) (ts + 1) 0 with
      | some te => te
      | none =>
        match findTocEndHeuristic (es.drop (ts + 1)) (ts + 1) (min (ts + 50) es.length) with
        | some te => te
        | none => min (ts + 20) (es.length - 1))

/-- `_get_default_split_point` (lines 384-417): `min(20, n // 5)` over
the same element scan. -/
def getDefaultSplitPoint (d : SplitDoc) : Nat := min 20 (d.elems.length / 5)

/-- Shared slicing arithmetic of `_split_document_xml_cover` and
`_split_document_xml_content_no_toc` (lines 453-508 / 558-614): clamp an
out-of-range split index to `min(n // 4, 20)`, turn it into a character
offset (`start` of the element for the cover cut, `end` for the content
cut, selected by `useEnd`), clamp the offset into the body span, and
return the offset relative to the body-open position. -/
def bodySplitPos (d : SplitDoc) (spIn : Int) (useEnd : Bool) : Nat :=
  let n := d.elems.length
  let bodyLen := (joinRaw d.elems).length
  let sp : Nat := if spIn < 0 || (n : Int) ≤ spIn then min (n / 4) 20 else spIn.toNat
  let splitPos : Nat :=
    if sp < n then
      d.preamble.length + (if useEnd then rawLenPrefix d.elems (sp + 1) else rawLenPrefix d.elems sp)
    else if d.elems ≠ [] then d.preamble.length + bodyLen
    else (renderDoc d).length / 2
  let clamped :=
    if splitPos < d.preamble.length then d.preamble.length
    else if d.preamble.length + bodyLen < splitPos then d.preamble.length + bodyLen
    else splitPos
  min (clamped - d.preamble.length) bodyLen

/-- `_split_document_xml_cover(doc_content, split_point)`
(lines 419-522): preamble, body content strictly before the split
element's start, trailer. -/
def splitXmlCover (d : SplitDoc) (spIn : Int) : PyStr :=
  d.preamble ++ (joinRaw d.elems).take (bodySplitPos d spIn false) ++ d.trailer

/-- `_split_document_xml_content_no_toc(doc_content, split_point)`
(lines 524-628): preamble, body content from the split element's end
onward, trailer. -/
def splitXmlContentNoToc (d : SplitDoc) (spIn : Int) : PyStr :=
  d.preamble ++ (joinRaw d.elems).drop (bodySplitPos d spIn true) ++ d.trailer

/-- `_process_cover_document` on the document content (lines 90-98):
cover locator result, or the default split point when no marker is
found, fed to the cover splitter. -/
def processCoverXml (d : SplitDoc) (kws : List PyStr) : PyStr :=
  splitXmlCover d
    (match findSplitPointCover d.elems kws with
     | some sp => (sp : Int)
     | none => (getDefaultSplitPoint d : Int))

/-- `_process_content_no_toc_document` on the document content
(lines 145-153): content locator result, or the default split point
when no marker is found, fed to the content splitter. -/
def processContentXml (d : SplitDoc) (kws : List PyStr) : PyStr :=
  splitXmlContentNoToc d
    (match findSplitPointContentNoToc d.elems kws with
     | some sp => (sp : Int)
     | none => (getDefaultSplitPoint d : Int))

/-- A raw container for the split tool (it never parses parts other
than `word/document.xml`, so parts are raw strings here). -/
abbrev RawContainer := List (PyStr × PyStr)

/-- `_process_cover_document` at the container level (lines 65-118 with
`_create_docx_from_temp`, lines 650-689): the source archive is
unpacked, `word/document.xml` is replaced by the cover split output
computed from its parse `d`, and every file of the unpacked tree is
repacked; every part other than `word/document.xml` is carried over
verbatim. -/
def processCoverContainer (c : RawContainer) (d : SplitDoc) (kws : List PyStr) :
    RawContainer :=
  setA c docName (processCoverXml d kws)

/-- `_process_content_no_toc_document` at the container level
(lines 120-173): same repacking with the content split output. -/
def processContentContainer (c : RawContainer) (d : SplitDoc) (kws : List PyStr) :
    RawContainer :=
  setA c docName (processContentXml d kws)

/-! ## Derived notions used by the statements -/

/-- The part names a reference list resolves to (the candidate
`header_file` / `footer_file` values of the injection loops). -/
def resolvedNames (files : Container) (refs : List HFRef) : List PyStr :=
  refs.filterMap fun ref => resolveTarget files ref.rid

/-- The header/footer parts a reference list resolves to and that exist
in the container (the parts the extraction loops actually read). -/
def resolvedHeaderParts (files : Container) (refs : List HFRef) : List HFPart :=
  refs.filterMap fun ref => (resolveTarget files ref.rid).bind (getHF files)

/-- The whitespace-separated tokens of a header part's reconstructed
text — the `parts` list of line 85. -/
def headerTokens (h : HFPart) : List PyStr :=
  splitWs (pyStrip (extractFormattedContent h))

/-- The part names the transplant operation may rewrite in the target
container: the resolved header and footer file names of the target
section (computed against the target container as given). -/
def transplantTargets (files : Container) (tgtIdx : Nat) : List PyStr :=
  match lookupA files docName with
  | some (Part.doc td) =>
    match pyGet td.sects ((tgtIdx : Int) - 1) with
    | some sect => resolvedNames files sect.headerRefs ++ resolvedNames files sect.footerRefs
    | none => []
  | _ => []

/-- Modelled from the spec (claim C4 / spec §4.2): the claimed TOC-end
scan — the same stop rules, but confined to a bounded 50-element
look-ahead window (the `fuel` argument).  This definition follows the
claim's wording, not the source, and exists only to compare the claimed
behaviour with the code's actual scan, which is unbounded. -/
def specTocEndScan : List BodyElem → Nat → Nat → Nat → Option Nat
  | _, _, _, 0 => none
  | [], _, _, _ + 1 => none
  | e :: rest, i, cnt, fuel + 1 =>
    match elemKind e with
    | ElemKind.paragraph =>
      let t := paraTextOf e
      if hasPageNumberPattern t then specTocEndScan rest (i + 1) (cnt + 1) fuel
      else if 3 ≤ cnt || 100 < t.length then some (i - 1)
      else specTocEndScan rest (i + 1) 0 fuel
    | ElemKind.table =>
      if cnt = 0 then some (i - 1) else specTocEndScan rest (i + 1) cnt fuel
    | _ => specTocEndScan rest (i + 1) cnt fuel

/-- Modelled from the spec (claim C4): the claimed TOC-end value — the
windowed scan's stop, or `min(tocStart + 20, lastIndex)` when nothing
triggers within the 50-element window. -/
def specTocEnd (es : List BodyElem) (kws : List PyStr) : Option Nat :=
  match findTocStart es kws with
  | none => none
  | some ts =>
    some (match specTocEndScan (es.drop (ts + 1)) (ts + 1) 0 50 with
      | some te => te
      | none => min (ts + 20) (es.length - 1))

/-! ## Concrete instances used by counterexamples and witnesses -/

/-- Scenario B source header: paragraphs `"Library\tNo-12345"` (a text
run, a tab run, a text run) and `"Report"` (one text run). -/
def hdrB : HFPart :=
  ⟨[⟨none, [⟨[RunChild.txt (some "Library".toList)]⟩, ⟨[RunChild.tab]⟩,
            ⟨[RunChild.txt (some "No-12345".toList)]⟩]⟩,
    ⟨none, [⟨[RunChild.txt (some "Report".toList)]⟩]⟩]⟩

/-- A container holding the Scenario B header as the default header of
its single section. -/
def cB : Container :=
  [(docName, Part.doc ⟨[⟨[⟨"rId1".toList, none⟩], []⟩]⟩),
   (relsName, Part.rels [⟨"rId1".toList, "header1.xml".toList⟩]),
   ("word/header1.xml".toList, Part.hf hdrB)]

/-- A footer part whose sole paragraph is a page-number field: field
begin, the `PAGE` instruction text, field separator, the rendered page
number `"3"` in a `w:t` run, field end. -/
def footerPage : HFPart :=
  ⟨[⟨none, [⟨[RunChild.fldChar "begin".toList]⟩,
            ⟨[RunChild.instrText (some " PAGE ".toList)]⟩,
            ⟨[RunChild.fldChar "separate".toList]⟩,
            ⟨[RunChild.txt (some "3".toList)]⟩,
            ⟨[RunChild.fldChar "end".toList]⟩]⟩]⟩

/-- Scenario A document: `[P "Cover", P "目录", P "Intro...1", Table,
P "Body text"]`. -/
def docA : SplitDoc :=
  ⟨"<w:document><w:body>".toList,
   [BodyElem.para ["Cover".toList], BodyElem.para ["目录".toList],
    BodyElem.para ["Intro...1".toList], BodyElem.table "<w:tr/>".toList,
    BodyElem.para ["Body text".toList]],
   "</w:body></w:document>".toList⟩

/-- The marker list containing `"目录"`. -/
def kwA : List PyStr := ["目录".toList]

/-- A two-element document whose TOC marker paragraph is followed by a
single short paragraph. -/
def docC : SplitDoc :=
  ⟨"<w:document><w:body>".toList,
   [BodyElem.para ["目录".toList], BodyElem.para ["x".toList]],
   "</w:body></w:document>".toList⟩

/-- A document with no TOC marker at all. -/
def docN : SplitDoc :=
  ⟨"<w:document><w:body>".toList,
   [BodyElem.para ["x".toList]],
   "</w:body></w:document>".toList⟩

/-- TOC marker paragraph, sixty bookmark elements, then a table: the
first stop-rule trigger sits far beyond any 50-element look-ahead
window. -/
def docW : List BodyElem :=
  BodyElem.para ["目录".toList] :: List.replicate 60 BodyElem.bookmarkStart
    ++ [BodyElem.table "x".toList]

/-- A target header with one paragraph holding the single text run
`"OLD"`. -/
def hdrT : HFPart := ⟨[⟨none, [⟨[RunChild.txt (some "OLD".toList)]⟩]⟩]⟩

/-- A target container holding `hdrT` as the default header of its
single section. -/
def cT : Container :=
  [(docName, Part.doc ⟨[⟨[⟨"rId9".toList, none⟩], []⟩]⟩),
   (relsName, Part.rels [⟨"rId9".toList, "header1.xml".toList⟩]),
   ("word/header1.xml".toList, Part.hf hdrT)]

/-- A file system holding the Scenario B source and the `"OLD"` target. -/
def fs0 : FileSys := [("src.docx".toList, cB), ("tgt.docx".toList, cT)]

/-- A source container whose header's reconstructed text has a single
whitespace-separated token. -/
def c1tok : Container :=
  [(docName, Part.doc ⟨[⟨[⟨"rId1".toList, none⟩], []⟩]⟩),
   (relsName, Part.rels [⟨"rId1".toList, "header1.xml".toList⟩]),
   ("word/header1.xml".toList, Part.hf ⟨[⟨none, [⟨[RunChild.txt (some "Solo".toList)]⟩]⟩]⟩)]

/-- A container whose single section references a relationship id with
no entry in the relationships part. -/
def cMiss : Container :=
  [(docName, Part.doc ⟨[⟨[⟨"rIdX".toList, none⟩], []⟩]⟩),
   (relsName, Part.rels [])]

/-- The target container the transplant of `cB` into `cT` produces. -/
def outT : Container :=
  match replaceHFCCore cB cT 1 1 with
  | Except.ok o => o
  | Except.error _ => []

/-- A raw split container: the Scenario A document plus one other part. -/
def c0 : RawContainer :=
  [(docName, renderDoc docA),
   ("word/styles.xml".toList, "<w:styles/>".toList)]

/-! ## Helper lemmas -/

/-- Updating one key leaves lookups of other keys unchanged. -/
theorem lookupA_setA_ne {α : Type} (l : List (PyStr × α)) (k key : PyStr) (v : α)
    (h : key ≠ k) : lookupA (setA l k v) key = lookupA l key := by
  induction l with
  | nil =>
    have hne : ¬k = key := fun hek => h hek.symm
    simp [setA, lookupA, hne]
  | cons hd tl ih =>
    obtain ⟨k0, v0⟩ := hd
    by_cases hk : k0 = k
    · subst hk
      have hne : ¬k0 = key := fun hek => h hek.symm
      simp [setA, lookupA, hne]
    · simp only [setA, if_neg hk, lookupA]
      by_cases hek : k0 = key
      · simp [hek]
      · simp [hek, ih]

/-- Updating a key makes its lookup return the new value. -/
theorem lookupA_setA_eq {α : Type} (l : List (PyStr × α)) (k : PyStr) (v : α) :
    lookupA (setA l k v) k = some v := by
  induction l with
  | nil => simp [setA, lookupA]
  | cons hd tl ih =>
    obtain ⟨k0, v0⟩ := hd
    by_cases hk : k0 = k
    · subst hk; simp [setA, lookupA]
    · simp [setA, hk, lookupA, ih]

/-- Taking the length of the left operand of an append returns it. -/
theorem take_append_self {α : Type} (a b : List α) : (a ++ b).take a.length = a := by
  induction a with
  | nil => simp
  | cons x xs ih => simp [ih]

/-- Dropping the length of the left operand of an append returns the
right operand. -/
theorem drop_append_self {α : Type} (a b : List α) : (a ++ b).drop a.length = b := by
  induction a with
  | nil => simp
  | cons x xs ih => simp [ih]

/-- The rendered body of an appended element list. -/
theorem joinRaw_append (l1 l2 : List BodyElem) :
    joinRaw (l1 ++ l2) = joinRaw l1 ++ joinRaw l2 := by
  simp [joinRaw]

/-- `rawLenPrefix` is the rendered length of the prefix. -/
theorem rawLenPrefix_eq (es : List BodyElem) (k : Nat) :
    rawLenPrefix es k = (joinRaw (es.take k)).length := by
  induction es generalizing k with
  | nil => cases k <;> simp [rawLenPrefix, joinRaw]
  | cons e rest ih =>
    cases k with
    | zero => simp [rawLenPrefix, joinRaw]
    | succ k => simp [rawLenPrefix, joinRaw, ih k]

/-- The rendered body splits as rendered prefix and rendered suffix. -/
theorem joinRaw_split (es : List BodyElem) (k : Nat) :
    joinRaw es = joinRaw (es.take k) ++ joinRaw (es.drop k) := by
  rw [← joinRaw_append, List.take_append_drop]

/-- Prefix lengths are bounded by the body length. -/
theorem rawLenPrefix_le (es : List BodyElem) (k : Nat) :
    rawLenPrefix es k ≤ (joinRaw es).length := by
  rw [rawLenPrefix_eq, joinRaw_split es k]
  simp

/-- Taking the prefix length of the rendered body yields the rendered
prefix. -/
theorem joinRaw_take (es : List BodyElem) (k : Nat) :
    (joinRaw es).take (rawLenPrefix es k) = joinRaw (es.take k) := by
  rw [rawLenPrefix_eq, joinRaw_split es k, take_append_self]

/-- Dropping the prefix length of the rendered body yields the rendered
suffix. -/
theorem joinRaw_drop (es : List BodyElem) (k : Nat) :
    (joinRaw es).drop (rawLenPrefix es k) = joinRaw (es.drop k) := by
  rw [rawLenPrefix_eq, joinRaw_split es k, drop_append_self]

/-- Bounds for the marker scan: a found index lies in
`[i, i + length)`. -/
theorem findTocStartAux_bounds (kws : List PyStr) : ∀ (es : List BodyElem) (i ts : Nat),
    findTocStartAux kws es i = some ts → i ≤ ts ∧ ts < i + es.length := by
  intro es
  induction es with
  | nil => intro i ts h; simp [findTocStartAux] at h
  | cons e rest ih =>
    intro i ts h
    have hlen : (e :: rest).length = rest.length + 1 := rfl
    simp only [findTocStartAux] at h
    split at h
    · have hv := Option.some_inj.mp h
      omega
    · have := ih (i + 1) ts h
      omega

/-- A found TOC start is a valid index. -/
theorem findTocStart_lt (es : List BodyElem) (kws : List PyStr) (ts : Nat)
    (h : findTocStart es kws = some ts) : ts < es.length := by
  have := findTocStartAux_bounds kws es 0 ts h
  omega

/-- Bounds for the first TOC-end scan: a stop value lies in
`[i - 1, i + length)`. -/
theorem findTocEndLoop_bounds : ∀ (es : List BodyElem) (i cnt v : Nat),
    findTocEndLoop es i cnt = some v → i - 1 ≤ v ∧ v < i + es.length := by
  intro es
  induction es with
  | nil => intro i cnt v h; simp [findTocEndLoop] at h
  | cons e rest ih =>
    intro i cnt v h
    have hlen : (e :: rest).length = rest.length + 1 := rfl
    simp only [findTocEndLoop] at h
    split at h
    · split at h
      · have := ih (i + 1) (cnt + 1) v h
        omega
      · split at h
        · have := ih (i + 1) cnt v h
          omega
        · split at h
          · have hv := Option.some_inj.mp h
            omega
          · split at h
            · have hv := Option.some_inj.mp h
              omega
            · have := ih (i + 1) 0 v h
              omega
    · split at h
      · have := ih (i + 1) cnt v h
        omega
      · have hv := Option.some_inj.mp h
        omega
    · have := ih (i + 1) cnt v h
      omega

/-- Bounds for the heuristic scan: a stop value lies in
`[i - 1, i + length)`. -/
theorem findTocEndHeuristic_bounds : ∀ (es : List BodyElem) (i lim v : Nat),
    findTocEndHeuristic es i lim = some v → i - 1 ≤ v ∧ v < i + es.length := by
  intro es
  induction es with
  | nil => intro i lim v h; simp [findTocEndHeuristic] at h
  | cons e rest ih =>
    intro i lim v h
    have hlen : (e :: rest).length = rest.length + 1 := rfl
    simp only [findTocEndHeuristic] at h
    split at h
    · simp at h
    · split at h
      · split at h
        · have hv := Option.some_inj.mp h
          omega
        · have := ih (i + 1) lim v h
          omega
      · have := ih (i + 1) lim v h
        omega

/-- If the first TOC-end scan finds no stop, neither does the bounded
heuristic scan: every paragraph that would satisfy the heuristic's
long-text condition would already have stopped the first scan. -/
theorem findTocEndHeuristic_none : ∀ (es : List BodyElem) (i cnt lim : Nat),
    findTocEndLoop es i cnt = none → findTocEndHeuristic es i lim = none := by
  intro es
  induction es with
  | nil => intro i cnt lim _; simp [findTocEndHeuristic]
  | cons e rest ih =>
    intro i cnt lim h
    simp only [findTocEndLoop] at h
    simp only [findTocEndHeuristic]
    by_cases hl : lim ≤ i
    · simp [hl]
    · simp only [if_neg hl]
      cases e with
      | para texts =>
        simp only [elemKind] at h ⊢
        by_cases h1 : hasPageNumberPattern (paraTextOf (BodyElem.para texts)) = true
        · simp only [h1, if_true] at h
          simp only [h1, Bool.not_true, Bool.and_false, Bool.false_eq_true, if_false]
          exact ih _ _ _ h
        · rw [Bool.not_eq_true] at h1
          simp only [h1, Bool.false_eq_true, if_false] at h
          simp only [h1, Bool.not_false, Bool.and_true]
          by_cases h2 : paraTextOf (BodyElem.para texts) = []
          · simp only [h2, if_true] at h
            have hc : ¬(100 < (paraTextOf (BodyElem.para texts)).length) := by
              rw [h2]; simp
            simp only [decide_eq_true_eq, hc, if_false]
            exact ih _ _ _ h
          · simp only [h2, if_false] at h
            by_cases h3 : 3 ≤ cnt
            · simp [h3] at h
            · simp only [h3, if_false] at h
              by_cases h4 : 100 < (paraTextOf (BodyElem.para texts)).length
              · simp [h4] at h
              · simp only [decide_eq_true_eq]
                rw [if_neg h4]
                simp only [h4, if_false] at h
                exact ih _ _ _ h
      | table inner =>
        simp only [elemKind] at h ⊢
        by_cases h1 : 0 < cnt
        · simp only [h1, if_true] at h
          exact ih _ _ _ h
        · simp [h1] at h
      | sectPr inner =>
        simp only [elemKind] at h ⊢
        exact ih _ _ _ h
      | bookmarkStart =>
        simp only [elemKind] at h ⊢
        exact ih _ _ _ h
      | bookmarkEnd =>
        simp only [elemKind] at h ⊢
        exact ih _ _ _ h

/-- When the marker is found, the content split point is a valid index
at or after the TOC start. -/
theorem tocEnd_bounds (es : List BodyElem) (kws : List PyStr) (ts te : Nat)
    (h1 : findTocStart es kws = some ts)
    (h2 : findSplitPointContentNoToc es kws = some te) :
    ts ≤ te ∧ te < es.length := by
  have hts := findTocStart_lt es kws ts h1
  have hdl : (es.drop (ts + 1)).length = es.length - (ts + 1) := by simp
  simp only [findSplitPointContentNoToc, h1] at h2
  rcases hc : findTocEndLoop (es.drop (ts + 1)) (ts + 1) 0 with _ | v
  · rw [hc] at h2
    rcases hh : findTocEndHeuristic (es.drop (ts + 1)) (ts + 1)
        (min (ts + 50) es.length) with _ | w
    · rw [hh] at h2
      simp only [Option.some_inj] at h2
      omega
    · rw [hh] at h2
      have hb := findTocEndHeuristic_bounds _ _ _ _ hh
      simp only [Option.some_inj] at h2
      omega
  · rw [hc] at h2
    have hb := findTocEndLoop_bounds _ _ _ _ hc
    simp only [Option.some_inj] at h2
    omega

/-- For an in-range index, the cover cut offset is the element's start
offset relative to the body region. -/
theorem bodySplitPos_start (d : SplitDoc) (k : Nat) (hk : k < d.elems.length) :
    bodySplitPos d (k : Int) false = rawLenPrefix d.elems k := by
  have hle := rawLenPrefix_le d.elems k
  have h1 : ¬((k : Int) < 0) := by omega
  have h2 : ¬((d.elems.length : Int) ≤ (k : Int)) := by omega
  simp [bodySplitPos, h1, h2, hk]
  split_ifs <;> omega

/-- For an in-range index, the content cut offset is the element's end
offset relative to the body region. -/
theorem bodySplitPos_end (d : SplitDoc) (k : Nat) (hk : k < d.elems.length) :
    bodySplitPos d (k : Int) true = rawLenPrefix d.elems (k + 1) := by
  have hle := rawLenPrefix_le d.elems (k + 1)
  have h1 : ¬((k : Int) < 0) := by omega
  have h2 : ¬((d.elems.length : Int) ≤ (k : Int)) := by omega
  simp [bodySplitPos, h1, h2, hk]
  split_ifs <;> omega

/-- The cover splitter at an in-range index keeps exactly the elements
before it. -/
theorem splitXmlCover_eq (d : SplitDoc) (k : Nat) (hk : k < d.elems.length) :
    splitXmlCover d (k : Int) = d.preamble ++ joinRaw (d.elems.take k) ++ d.trailer := by
  rw [splitXmlCover, bodySplitPos_start d k hk, joinRaw_take]

/-- The content splitter at an in-range index keeps exactly the elements
after it. -/
theorem splitXmlContentNoToc_eq (d : SplitDoc) (k : Nat) (hk : k < d.elems.length) :
    splitXmlContentNoToc d (k : Int)
      = d.preamble ++ joinRaw (d.elems.drop (k + 1)) ++ d.trailer := by
  rw [splitXmlContentNoToc, bodySplitPos_end d k hk, joinRaw_drop]

/-- If the header extraction loop succeeds, every resolved header part
has at least two whitespace-separated tokens. -/
theorem extractHeadersAux_ok (files : Container) : ∀ (refs : List HFRef)
    (acc r : List (PyStr × PyStr)),
    extractHeadersAux files refs acc = Except.ok r →
    ∀ h0 ∈ resolvedHeaderParts files refs, 2 ≤ (headerTokens h0).length := by
  intro refs
  induction refs with
  | nil => intro acc r _ h0 hmem; simp [resolvedHeaderParts] at hmem
  | cons ref rest ih =>
    intro acc r hok h0 hmem
    simp only [extractHeadersAux] at hok
    simp only [resolvedHeaderParts, List.filterMap_cons] at hmem
    cases hres : (resolveTarget files ref.rid).bind (getHF files) with
    | none =>
      simp only [hres] at hok hmem
      exact ih acc r hok h0 hmem
    | some hpart =>
      simp only [hres] at hok hmem
      cases hts : splitWs (pyStrip (extractFormattedContent hpart)) with
      | nil => rw [hts] at hok; cases hok
      | cons t0 ts2 =>
        cases ts2 with
        | nil => rw [hts] at hok; cases hok
        | cons t1 ts3 =>
          rw [hts] at hok
          rw [List.mem_cons] at hmem
          rcases hmem with hmem | hmem
          · subst hmem
            have : headerTokens h0 = t0 :: t1 :: ts3 := hts
            rw [this]
            simp
          · exact ih _ r hok h0 hmem

/-- If some resolved header part has fewer than two tokens, the header
extraction loop raises. -/
theorem extractHeadersAux_err (files : Container) : ∀ (refs : List HFRef)
    (acc : List (PyStr × PyStr)),
    (∃ h0 ∈ resolvedHeaderParts files refs, (headerTokens h0).length < 2) →
    ∃ msg, extractHeadersAux files refs acc = Except.error msg := by
  intro refs
  induction refs with
  | nil =>
    intro acc hbad
    obtain ⟨h0, hmem, _⟩ := hbad
    simp [resolvedHeaderParts] at hmem
  | cons ref rest ih =>
    intro acc hbad
    obtain ⟨h0, hmem, hlen⟩ := hbad
    simp only [resolvedHeaderParts, List.filterMap_cons] at hmem
    cases hres : (resolveTarget files ref.rid).bind (getHF files) with
    | none =>
      simp only [hres] at hmem
      simp only [extractHeadersAux, hres]
      exact ih acc ⟨h0, hmem, hlen⟩
    | some hpart =>
      simp only [hres] at hmem
      rw [List.mem_cons] at hmem
      simp only [extractHeadersAux, hres]
      cases hts : splitWs (pyStrip (extractFormattedContent hpart)) with
      | nil => exact ⟨_, rfl⟩
      | cons t0 ts2 =>
        cases ts2 with
        | nil => exact ⟨_, rfl⟩
        | cons t1 ts3 =>
          rcases hmem with hmem | hmem
          · subst hmem
            have : headerTokens h0 = t0 :: t1 :: ts3 := hts
            rw [this] at hlen
            simp at hlen
            omega
          · exact ih _ ⟨h0, hmem, hlen⟩

/-- Resolution only depends on the relationships part. -/
theorem resolveTarget_ext (f1 f2 : Container)
    (hr : lookupA f1 relsName = lookupA f2 relsName) (rid : PyStr) :
    resolveTarget f1 rid = resolveTarget f2 rid := by
  rw [resolveTarget, resolveTarget, hr]

/-- Overwriting the relationships part with a header part makes every
later resolution miss. -/
theorem resolveTarget_setA_hf_rels (files : Container) (h : HFPart) (rid : PyStr) :
    resolveTarget (setA files relsName (Part.hf h)) rid = none := by
  rw [resolveTarget, lookupA_setA_eq]

/-- If every resolution misses, the injection loop is the identity. -/
theorem injectAux_of_resolve_none (content : List (PyStr × PyStr))
    (props : List (PyStr × List PPr)) (files : Container)
    (hmiss : ∀ rid, resolveTarget files rid = none) :
    ∀ refs : List HFRef, injectAux content props files refs = files := by
  intro refs
  induction refs with
  | nil => rfl
  | cons ref rest ih => simp only [injectAux, hmiss ref.rid]; exact ih

/-- Resolved names only depend on the relationships part. -/
theorem resolvedNames_ext (f1 f2 : Container)
    (hr : lookupA f1 relsName = lookupA f2 relsName) (refs : List HFRef) :
    resolvedNames f1 refs = resolvedNames f2 refs := by
  simp only [resolvedNames]
  congr 1
  funext ref
  exact resolveTarget_ext f1 f2 hr ref.rid

/-- If every resolution misses there are no resolved names. -/
theorem resolvedNames_none (files : Container)
    (hmiss : ∀ rid, resolveTarget files rid = none) (refs : List HFRef) :
    resolvedNames files refs = [] := by
  induction refs with
  | nil => rfl
  | cons ref rest ih => simp only [resolvedNames, List.filterMap_cons, hmiss ref.rid]; exact ih

/-- Frame property of the injection loop: parts whose names are not
among the resolved names are left untouched. -/
theorem injectAux_frame (content : List (PyStr × PyStr))
    (props : List (PyStr × List PPr)) : ∀ (refs : List HFRef) (files : Container)
    (n : PyStr), n ∉ resolvedNames files refs →
    lookupA (injectAux content props files refs) n = lookupA files n := by
  intro refs
  induction refs with
  | nil => intro files n _; rfl
  | cons ref rest ih =>
    intro files n hn
    cases hres : resolveTarget files ref.rid with
    | none =>
      simp only [injectAux, hres]
      apply ih
      simpa [resolvedNames, List.filterMap_cons, hres] using hn
    | some m =>
      have hn2 : ¬(n = m) ∧ n ∉ resolvedNames files rest := by
        simp only [resolvedNames, List.filterMap_cons, hres, List.mem_cons] at hn
        push_neg at hn
        exact ⟨hn.1, hn.2⟩
      cases hg : getHF files m with
      | none => simp only [injectAux, hres, hg]; exact ih files n hn2.2
      | some hpart =>
        simp only [injectAux, hres, hg]
        by_cases hm : m = relsName
        · subst hm
          rw [injectAux_of_resolve_none content props _
            (resolveTarget_setA_hf_rels files _) rest]
          exact lookupA_setA_ne files relsName n _ hn2.1
        · have hr : lookupA (setA files m (Part.hf (injectedPart content props ref hpart)))
              relsName = lookupA files relsName :=
            lookupA_setA_ne files m relsName _ fun he => hm he.symm
          rw [ih _ n (by rw [resolvedNames_ext _ files hr rest]; exact hn2.2)]
          exact lookupA_setA_ne files m n _ hn2.1

/-- The injection loop either leaves the relationships part alone or
breaks every later resolution. -/
theorem injectAux_rels (content : List (PyStr × PyStr))
    (props : List (PyStr × List PPr)) : ∀ (refs : List HFRef) (files : Container),
    lookupA (injectAux content props files refs) relsName = lookupA files relsName
    ∨ ∀ rid, resolveTarget (injectAux content props files refs) rid = none := by
  intro refs
  induction refs with
  | nil => intro files; left; rfl
  | cons ref rest ih =>
    intro files
    cases hres : resolveTarget files ref.rid with
    | none => simp only [injectAux, hres]; exact ih files
    | some m =>
      cases hg : getHF files m with
      | none => simp only [injectAux, hres, hg]; exact ih files
      | some hpart =>
        simp only [injectAux, hres, hg]
        by_cases hm : m = relsName
        · subst hm
          right
          rw [injectAux_of_resolve_none content props _
            (resolveTarget_setA_hf_rels files _) rest]
          exact resolveTarget_setA_hf_rels files _
        · have hr : lookupA (setA files m (Part.hf (injectedPart content props ref hpart)))
              relsName = lookupA files relsName :=
            lookupA_setA_ne files m relsName _ fun he => hm he.symm
          rcases ih (setA files m (Part.hf (injectedPart content props ref hpart))) with h1 | h1
          · left; rw [h1, hr]
          · right; exact h1

/-- A reference whose resolution misses can be deleted from the header
extraction loop without changing its result. -/
theorem extractHeadersAux_erase (files : Container) (ref : HFRef)
    (hmiss : (resolveTarget files ref.rid).bind (getHF files) = none) :
    ∀ (l1 l2 : List HFRef) (acc : List (PyStr × PyStr)),
    extractHeadersAux files (l1 ++ ref :: l2) acc
      = extractHeadersAux files (l1 ++ l2) acc := by
  intro l1
  induction l1 with
  | nil =>
    intro l2 acc
    simp only [List.nil_append, extractHeadersAux, hmiss]
  | cons r0 l1x ih =>
    intro l2 acc
    simp only [List.cons_append, extractHeadersAux]
    cases hr0 : (resolveTarget files r0.rid).bind (getHF files) with
    | none => exact ih l2 acc
    | some hp =>
      cases hts : splitWs (pyStrip (extractFormattedContent hp)) with
      | nil => simp [hts]
      | cons a tl =>
        cases tl with
        | nil => simp [hts]
        | cons b tl2 =>
          simp only [hts]
          exact ih l2 _

/-- A reference whose resolution misses can be deleted from the footer
extraction loop without changing its result. -/
theorem extractFootersAux_erase (files : Container) (ref : HFRef)
    (hmiss : (resolveTarget files ref.rid).bind (getHF files) = none) :
    ∀ (l1 l2 : List HFRef) (acc : List (PyStr × PyStr)),
    extractFootersAux files (l1 ++ ref :: l2) acc
      = extractFootersAux files (l1 ++ l2) acc := by
  intro l1
  induction l1 with
  | nil =>
    intro l2 acc
    simp only [List.nil_append, extractFootersAux, hmiss]
  | cons r0 l1x ih =>
    intro l2 acc
    simp only [List.cons_append, extractFootersAux]
    cases hr0 : (resolveTarget files r0.rid).bind (getHF files) with
    | none => exact ih l2 acc
    | some hp => exact ih l2 _

/-- A reference whose resolution misses is a no-op step of the injection
loop. -/
theorem injectAux_skip (files : Container) (ref : HFRef)
    (content : List (PyStr × PyStr)) (props : List (PyStr × List PPr))
    (hmiss : (resolveTarget files ref.rid).bind (getHF files) = none)
    (rest : List HFRef) :
    injectAux content props files (ref :: rest) = injectAux content props files rest := by
  cases hres : resolveTarget files ref.rid with
  | none => simp only [injectAux, hres]
  | some m =>
    have hg : getHF files m = none := by
      rw [hres] at hmiss
      simpa using hmiss
    simp only [injectAux, hres, hg]

/-! ## Claim theorems -/

/-- C1, counterexample.  For the Scenario B header (paragraphs
`"Library\tNo-12345"` and `"Report"`), the content string
`extract_header_footer_content` stores and later re-injects is
`"Library\tNo-12345"` — the first two whitespace tokens of the
reconstructed text joined by one tab — and not the claimed full
reconstructed text `"Library\tNo-12345\nReport"`, even though
`extract_formatted_content` itself does produce the latter. -/
theorem C1_roundtrip_counterexample :
    extractHeaderFooterContent cB 1
      = Except.ok ⟨[("default".toList, "Library\tNo-12345".toList)], []⟩
    ∧ extractFormattedContent hdrB = "Library\tNo-12345\nReport".toList
    ∧ ("Library\tNo-12345".toList : PyStr) ≠ "Library\tNo-12345\nReport".toList :=
  ⟨rfl, rfl, by decide⟩

/-- C1, amended.  Whenever a header reference resolves to a part whose
reconstructed text has at least two whitespace-separated tokens, the
extraction loop stores the first two tokens joined by one tab under the
reference's type; for the Scenario B header the stored content is
`"Library\tNo-12345"`, re-injecting that same string with
`replace_formatted_content` leaves the header part (hence both
paragraphs' texts) completely unchanged, and re-extraction returns the
same string — the round trip is stable with the corrected content
string. -/
theorem C1_roundtrip_amended :
    (∀ (files : Container) (ref : HFRef) (hpart : HFPart)
      (acc : List (PyStr × PyStr)) (t0 t1 : PyStr) (ts2 : List PyStr),
      (resolveTarget files ref.rid).bind (getHF files) = some hpart →
      headerTokens hpart = t0 :: t1 :: ts2 →
      extractHeadersAux files [ref] acc
        = Except.ok (setA acc (refType ref) (t0 ++ '\t' :: t1)))
    ∧ replaceFormattedContent hdrB "Library\tNo-12345".toList = hdrB
    ∧ extractHeaderFooterContent cB 1
        = Except.ok ⟨[("default".toList, "Library\tNo-12345".toList)], []⟩ := by
  refine ⟨?_, by decide, rfl⟩
  intro files ref hpart acc t0 t1 ts2 hres hts
  simp only [extractHeadersAux, hres]
  have hts2 : splitWs (pyStrip (extractFormattedContent hpart)) = t0 :: t1 :: ts2 := hts
  simp only [hts2]

/-- C1, witness for the amended theorem at the Scenario B container. -/
theorem C1_roundtrip_amended_witness :
    ((resolveTarget cB ("rId1".toList)).bind (getHF cB) = some hdrB
      ∧ headerTokens hdrB = ["Library".toList, "No-12345".toList, "Report".toList])
    ∧ extractHeadersAux cB [⟨"rId1".toList, none⟩] []
        = Except.ok [("default".toList, "Library\tNo-12345".toList)] :=
  ⟨⟨by decide, by decide⟩,
    C1_roundtrip_amended.1 cB ⟨"rId1".toList, none⟩ hdrB []
      "Library".toList "No-12345".toList ["Report".toList] (by decide) (by decide)⟩

/-- C2 (code bug).  `extract_formatted_content` does not exclude
page-number fields: for a footer whose only paragraph is a `PAGE` field,
the rendered page-number run's text `"3"` is included in the extracted
content, although the module's own documentation (`不包括页码`,
`排除页码域`) and the claim say such runs contribute nothing. -/
theorem C2_page_field_included :
    extractFormattedContent footerPage = "3".toList
    ∧ ("3".toList : PyStr) ≠ [] :=
  ⟨rfl, by decide⟩

/-- C3, counterexample.  For the document `[P "目录", P "x"]` with the
marker found exactly once, the cover fragment and the content fragment
both have an empty body, so concatenating their body element sequences
cannot reproduce the non-empty original sequence: the elements from
`tocStart` through `tocEnd` are dropped. -/
theorem C3_concat_counterexample :
    processCoverXml docC kwA = docC.preamble ++ docC.trailer
    ∧ processContentXml docC kwA = docC.preamble ++ docC.trailer
    ∧ joinRaw docC.elems ≠ [] :=
  ⟨rfl, rfl, by decide⟩

/-- C3, amended.  With the marker found, the cover fragment keeps
exactly the elements strictly before `tocStart`, the content fragment
keeps exactly the elements strictly after `tocEnd`, and concatenating
cover body, the TOC segment (elements `tocStart .. tocEnd`) and content
body — not cover and content alone — reproduces the original body
exactly. -/
theorem C3_concat_amended (d : SplitDoc) (kws : List PyStr) (ts te : Nat)
    (h1 : findSplitPointCover d.elems kws = some ts)
    (h2 : findSplitPointContentNoToc d.elems kws = some te) :
    splitXmlCover d (ts : Int)
      = d.preamble ++ joinRaw (d.elems.take ts) ++ d.trailer
    ∧ splitXmlContentNoToc d (te : Int)
        = d.preamble ++ joinRaw (d.elems.drop (te + 1)) ++ d.trailer
    ∧ joinRaw (d.elems.take ts)
        ++ joinRaw ((d.elems.drop ts).take (te + 1 - ts))
        ++ joinRaw (d.elems.drop (te + 1)) = joinRaw d.elems := by
  have hts : ts < d.elems.length := findTocStart_lt d.elems kws ts h1
  have hb := tocEnd_bounds d.elems kws ts te h1 h2
  refine ⟨splitXmlCover_eq d ts hts, splitXmlContentNoToc_eq d te hb.2, ?_⟩
  have hadd : ts + (te + 1 - ts) = te + 1 := by omega
  calc joinRaw (d.elems.take ts) ++ joinRaw ((d.elems.drop ts).take (te + 1 - ts))
        ++ joinRaw (d.elems.drop (te + 1))
      = joinRaw (d.elems.take ts ++ (d.elems.drop ts).take (te + 1 - ts))
          ++ joinRaw (d.elems.drop (te + 1)) := by rw [joinRaw_append]
    _ = joinRaw (d.elems.take (te + 1)) ++ joinRaw (d.elems.drop (te + 1)) := by
          rw [← List.take_add, hadd]
    _ = joinRaw (d.elems.take (te + 1) ++ d.elems.drop (te + 1)) := by
          rw [joinRaw_append]
    _ = joinRaw d.elems := by rw [List.take_append_drop]

/-- C3, witness for the amended theorem at the two-element document. -/
theorem C3_concat_amended_witness :
    (findSplitPointCover docC.elems kwA = some 0
      ∧ findSplitPointContentNoToc docC.elems kwA = some 1)
    ∧ (splitXmlCover docC (0 : Int)
        = docC.preamble ++ joinRaw (docC.elems.take 0) ++ docC.trailer
      ∧ splitXmlContentNoToc docC (1 : Int)
          = docC.preamble ++ joinRaw (docC.elems.drop 2) ++ docC.trailer
      ∧ joinRaw (docC.elems.take 0) ++ joinRaw ((docC.elems.drop 0).take 2)
          ++ joinRaw (docC.elems.drop 2) = joinRaw docC.elems) :=
  ⟨⟨rfl, rfl⟩, C3_concat_amended docC kwA 0 1 rfl rfl⟩

/-- C4, counterexample.  For a document whose first stop-rule trigger (a
table with no preceding numbered lines) sits 61 elements after the
marker, the code's unbounded scan returns `tocEnd = 60`, while the
claimed behaviour — stop rules confined to a 50-element look-ahead
window, else `min(tocStart + 20, lastIndex)` — predicts `tocEnd = 20`. -/
theorem C4_stop_rules_counterexample :
    findSplitPointContentNoToc docW kwA = some 60
    ∧ specTocEnd docW kwA = some 20
    ∧ (some 60 : Option Nat) ≠ some 20 :=
  ⟨rfl, rfl, by decide⟩

/-- C4, amended.  With the marker found, the TOC end is the value of the
first scan — which applies the stop rules to every remaining element of
the document, with no 50-element bound, skipping empty paragraphs
without resetting the counter — and falls back to
`min(tocStart + 20, lastIndex)` when no rule ever triggers; the bounded
50-element heuristic re-scan can never contribute, because any paragraph
satisfying its condition would already have stopped the first scan. -/
theorem C4_stop_rules_amended (es : List BodyElem) (kws : List PyStr) (ts : Nat)
    (h : findTocStart es kws = some ts) :
    findSplitPointContentNoToc es kws
      = some ((findTocEndLoop (es.drop (ts + 1)) (ts + 1) 0).getD
          (min (ts + 20) (es.length - 1)))
    ∧ ∀ lim, findTocEndLoop (es.drop (ts + 1)) (ts + 1) 0 = none →
        findTocEndHeuristic (es.drop (ts + 1)) (ts + 1) lim = none := by
  constructor
  · simp only [findSplitPointContentNoToc, h]
    cases hc : findTocEndLoop (es.drop (ts + 1)) (ts + 1) 0 with
    | none => simp only [hc, findTocEndHeuristic_none _ _ _ _ hc, Option.getD_none]
    | some v => simp only [hc, Option.getD_some]
  · intro lim hnone
    exact findTocEndHeuristic_none _ _ _ _ hnone

/-- C4, witness for the amended theorem at the Scenario A document. -/
theorem C4_stop_rules_amended_witness :
    findTocStart docA.elems kwA = some 1
    ∧ findSplitPointContentNoToc docA.elems kwA
        = some ((findTocEndLoop (docA.elems.drop 2) 2 0).getD
            (min 21 (docA.elems.length - 1))) :=
  ⟨rfl, (C4_stop_rules_amended docA.elems kwA 1 rfl).1⟩

/-- C5 (confirmed).  Whenever the marker is found, `tocStart ≤ tocEnd`;
and when no marker is found in any paragraph, both split operations run
the default fallback `min(total elements // 5, 20)` (the orders of the
`min` arguments agree) and still produce a complete document — preamble,
a slice of the body, trailer — without raising. -/
theorem C5_marker_invariance :
    (∀ (es : List BodyElem) (kws : List PyStr) (ts te : Nat),
      findTocStart es kws = some ts →
      findSplitPointContentNoToc es kws = some te → ts ≤ te)
    ∧ (∀ (d : SplitDoc) (kws : List PyStr),
      findTocStart d.elems kws = none →
      processCoverXml d kws = splitXmlCover d (getDefaultSplitPoint d : Int)
      ∧ processContentXml d kws = splitXmlContentNoToc d (getDefaultSplitPoint d : Int)
      ∧ getDefaultSplitPoint d = min 20 (d.elems.length / 5)
      ∧ (∃ k, processCoverXml d kws
          = d.preamble ++ (joinRaw d.elems).take k ++ d.trailer)
      ∧ (∃ k, processContentXml d kws
          = d.preamble ++ (joinRaw d.elems).drop k ++ d.trailer)) := by
  constructor
  · intro es kws ts te h1 h2
    exact (tocEnd_bounds es kws ts te h1 h2).1
  · intro d kws hn
    refine ⟨?_, ?_, rfl, ⟨_, rfl⟩, ⟨_, rfl⟩⟩
    · simp only [processCoverXml, findSplitPointCover, hn]
    · simp only [processContentXml, findSplitPointContentNoToc, hn]

/-- C5, witness: the marker case at the Scenario A document and the
no-marker case at the marker-free document. -/
theorem C5_marker_invariance_witness :
    (findTocStart docA.elems kwA = some 1
      ∧ findSplitPointContentNoToc docA.elems kwA = some 4
      ∧ 1 ≤ 4)
    ∧ (findTocStart docN.elems kwA = none
      ∧ processCoverXml docN kwA = splitXmlCover docN (getDefaultSplitPoint docN : Int)) :=
  ⟨⟨rfl, rfl, C5_marker_invariance.1 docA.elems kwA 1 4 rfl rfl⟩,
   ⟨rfl, (C5_marker_invariance.2 docN kwA rfl).1⟩⟩

set_option maxRecDepth 8192 in
/-- C6, counterexample.  On Scenario A the content split's body is
empty — the table and the body paragraph are consumed into the TOC
region, because `"Intro...1"` matches the page-number pattern, so the
table-encounter rule does not fire and `tocEnd` falls back to the last
index — and not the claimed `[Table, P "Body text"]`. -/
theorem C6_scenario_a_counterexample :
    processContentXml docA kwA
      = "<w:document><w:body></w:body></w:document>".toList
    ∧ processContentXml docA kwA
        ≠ ("<w:document><w:body><w:tbl><w:tr/></w:tbl>"
            ++ "<w:p><w:t>Body text</w:t></w:p></w:body></w:document>").toList :=
  ⟨rfl, by decide⟩

set_option maxRecDepth 8192 in
/-- C6, amended.  On Scenario A the locator returns `tocStart = 1` and
the cover split's body is exactly `[P "Cover"]`, as claimed; but
`"Intro...1"` matches the page-number pattern, making
`consecutiveNumberedLines = 1` when the table is reached, so the table
is skipped, no stop rule fires, `tocEnd` defaults to
`min(tocStart + 20, lastIndex) = 4`, and the content split's body is
empty. -/
theorem C6_scenario_a_amended :
    findTocStart docA.elems kwA = some 1
    ∧ processCoverXml docA kwA
        = "<w:document><w:body><w:p><w:t>Cover</w:t></w:p></w:body></w:document>".toList
    ∧ hasPageNumberPattern (paraTextOf (BodyElem.para ["Intro...1".toList])) = true
    ∧ findSplitPointContentNoToc docA.elems kwA = some 4
    ∧ processContentXml docA kwA
        = "<w:document><w:body></w:body></w:document>".toList :=
  ⟨rfl, rfl, rfl, rfl, rfl⟩

/-- C7 (confirmed).  Container integrity: the split operations rewrite
only `word/document.xml`, and the transplant core rewrites only the
resolved header/footer parts of the target section — every other part
of the output container is identical to the input container's part. -/
theorem C7_container_integrity :
    (∀ (c : RawContainer) (d : SplitDoc) (kws : List PyStr) (name : PyStr),
      name ≠ docName →
      lookupA (processCoverContainer c d kws) name = lookupA c name
      ∧ lookupA (processContentContainer c d kws) name = lookupA c name)
    ∧ (∀ (srcFiles tgtFiles : Container) (si ti : Nat) (out : Container)
        (name : PyStr),
      replaceHFCCore srcFiles tgtFiles si ti = Except.ok out →
      name ∉ transplantTargets tgtFiles ti →
      lookupA out name = lookupA tgtFiles name) := by
  constructor
  · intro c d kws name hne
    exact ⟨lookupA_setA_ne c docName name _ hne, lookupA_setA_ne c docName name _ hne⟩
  · intro srcFiles tgtFiles si ti out name hok hn
    simp only [replaceHFCCore] at hok
    cases hex : extractHeaderFooterContent srcFiles si with
    | error e => simp [hex] at hok
    | ok content =>
    simp only [hex] at hok
    cases hsd : lookupA srcFiles docName with
    | none => simp [hsd] at hok
    | some psrc =>
    cases psrc with
    | rels rs => simp [hsd] at hok
    | hf hh => simp [hsd] at hok
    | blob bb => simp [hsd] at hok
    | doc sd =>
    simp only [hsd] at hok
    by_cases hsl : sd.sects.length < si
    · simp [hsl] at hok
    simp only [hsl, if_false] at hok
    cases hsg : pyGet sd.sects ((si : Int) - 1) with
    | none => simp [hsg] at hok
    | some srcSect =>
    simp only [hsg] at hok
    cases htd : lookupA tgtFiles docName with
    | none => simp [htd] at hok
    | some ptgt =>
    cases ptgt with
    | rels rs => simp [htd] at hok
    | hf hh => simp [htd] at hok
    | blob bb => simp [htd] at hok
    | doc td =>
    simp only [htd] at hok
    by_cases htl : td.sects.length < ti
    · simp [htl] at hok
    simp only [htl, if_false] at hok
    cases htg : pyGet td.sects ((ti : Int) - 1) with
    | none => simp [htg] at hok
    | some tgtSect =>
    simp only [htg, Except.ok.injEq] at hok
    subst hok
    simp only [transplantTargets, htd, htg, List.mem_append] at hn
    push_neg at hn
    refine Eq.trans (injectAux_frame _ _ _ _ _ ?_) (injectAux_frame _ _ _ _ _ hn.1)
    rcases injectAux_rels content.headers
        (sourcePropsAux srcFiles srcSect.headerRefs []) tgtSect.headerRefs tgtFiles
      with hr | hr
    · rw [resolvedNames_ext _ tgtFiles hr]
      exact hn.2
    · rw [resolvedNames_none _ hr]
      exact List.not_mem_nil _

set_option maxRecDepth 8192 in
/-- C7, witness: the transplant of the Scenario B source into the
`"OLD"` target leaves the main document part untouched, and the split
container operations leave the styles part untouched. -/
theorem C7_container_integrity_witness :
    (replaceHFCCore cB cT 1 1 = Except.ok outT
      ∧ docName ∉ transplantTargets cT 1
      ∧ "word/styles.xml".toList ≠ docName)
    ∧ lookupA outT docName = lookupA cT docName
    ∧ lookupA (processCoverContainer c0 docA kwA) "word/styles.xml".toList
        = lookupA c0 "word/styles.xml".toList :=
  ⟨⟨rfl, by decide, by decide⟩,
   C7_container_integrity.2 cB cT 1 1 outT docName rfl (by decide),
   (C7_container_integrity.1 c0 docA kwA "word/styles.xml".toList (by decide)).1⟩

/-- C8 (confirmed).  A reference whose relationship id has no entry, or
whose resolved part is absent, contributes nothing: the header and
footer extraction loops behave exactly as if the reference were not
there (so they complete without raising whenever the rest does, with no
entry for that reference), and the injection loop skips it, leaving
every part untouched. -/
theorem C8_resolution_misses (files : Container) (ref : HFRef)
    (hmiss : (resolveTarget files ref.rid).bind (getHF files) = none) :
    (∀ (l1 l2 : List HFRef) (acc : List (PyStr × PyStr)),
      extractHeadersAux files (l1 ++ ref :: l2) acc
        = extractHeadersAux files (l1 ++ l2) acc)
    ∧ (∀ (l1 l2 : List HFRef) (acc : List (PyStr × PyStr)),
      extractFootersAux files (l1 ++ ref :: l2) acc
        = extractFootersAux files (l1 ++ l2) acc)
    ∧ (∀ (content : List (PyStr × PyStr)) (props : List (PyStr × List PPr))
        (rest : List HFRef),
      injectAux content props files (ref :: rest)
        = injectAux content props files rest) :=
  ⟨extractHeadersAux_erase files ref hmiss,
   extractFootersAux_erase files ref hmiss,
   fun content props rest => injectAux_skip files ref content props hmiss rest⟩

/-- C8, witness at the container whose single reference id has no
relationship entry. -/
theorem C8_resolution_misses_witness :
    (resolveTarget cMiss "rIdX".toList).bind (getHF cMiss) = none
    ∧ extractHeadersAux cMiss [(⟨"rIdX".toList, none⟩ : HFRef)] []
        = extractHeadersAux cMiss [] []
    ∧ injectAux [] [] cMiss [(⟨"rIdX".toList, none⟩ : HFRef)]
        = injectAux [] [] cMiss [] :=
  ⟨by decide,
   (C8_resolution_misses cMiss ⟨"rIdX".toList, none⟩ (by decide)).1 [] [] [],
   (C8_resolution_misses cMiss ⟨"rIdX".toList, none⟩ (by decide)).2.2 [] [] []⟩

set_option maxRecDepth 8192 in
/-- C9, counterexample.  An invocation with an empty `save_path`
succeeds and overwrites the target path in place: the target container
passed as input is not left unchanged. -/
theorem C9_inputs_counterexample :
    (replaceHeaderFooterContentFS fs0 "src.docx".toList "tgt.docx".toList 1 1 []).2 = true
    ∧ lookupA (replaceHeaderFooterContentFS fs0 "src.docx".toList "tgt.docx".toList
          1 1 []).1 "tgt.docx".toList
        ≠ lookupA fs0 "tgt.docx".toList :=
  ⟨rfl, by decide⟩

/-- C9, amended.  The transplant writes only the designated output
path — `save_path`, or the target path itself when `save_path` is
empty; every other path of the file system, in particular the source,
and the target whenever a distinct non-empty save path is given, keeps
its bytes. -/
theorem C9_inputs_amended (fs : FileSys) (srcPath tgtPath savePath : PyStr)
    (si ti : Nat) (p : PyStr)
    (hp : p ≠ (if savePath ≠ [] then savePath else tgtPath)) :
    lookupA (replaceHeaderFooterContentFS fs srcPath tgtPath si ti savePath).1 p
      = lookupA fs p := by
  cases hsrc : lookupA fs srcPath with
  | none => simp [replaceHeaderFooterContentFS, hsrc]
  | some srcFiles =>
    cases htgt : lookupA fs tgtPath with
    | none => simp [replaceHeaderFooterContentFS, hsrc, htgt]
    | some tgtFiles =>
      cases hcore : replaceHFCCore srcFiles tgtFiles si ti with
      | error e => simp [replaceHeaderFooterContentFS, hsrc, htgt, hcore]
      | ok outFiles =>
        simp only [replaceHeaderFooterContentFS, hsrc, htgt, hcore]
        exact lookupA_setA_ne fs _ p outFiles hp

set_option maxRecDepth 8192 in
/-- C9, witness: with a distinct non-empty save path both input paths
are preserved. -/
theorem C9_inputs_amended_witness :
    ("src.docx".toList
        ≠ (if ("out.docx".toList : PyStr) ≠ [] then "out.docx".toList
           else "tgt.docx".toList))
    ∧ lookupA (replaceHeaderFooterContentFS fs0 "src.docx".toList "tgt.docx".toList
          1 1 "out.docx".toList).1 "src.docx".toList
        = lookupA fs0 "src.docx".toList :=
  ⟨by decide,
   C9_inputs_amended fs0 "src.docx".toList "tgt.docx".toList "out.docx".toList
     1 1 "src.docx".toList (by decide)⟩

/-- C10 (confirmed).  Once the section is located, the extraction
raises exactly when some resolved header part's reconstructed text has
fewer than two whitespace-separated tokens: such a part forces an
error, and a normal return guarantees every resolved header part has at
least two tokens. -/
theorem C10_header_token_precondition (files : Container) (si : Nat)
    (d : DocumentXml) (sect : SectPr)
    (hdoc : lookupA files docName = some (Part.doc d))
    (hlen : ¬(d.sects.length < si))
    (hsect : pyGet d.sects ((si : Int) - 1) = some sect) :
    ((∃ h0 ∈ resolvedHeaderParts files sect.headerRefs,
        (headerTokens h0).length < 2) →
      ∃ msg, extractHeaderFooterContent files si = Except.error msg)
    ∧ (∀ r, extractHeaderFooterContent files si = Except.ok r →
      ∀ h0 ∈ resolvedHeaderParts files sect.headerRefs,
        2 ≤ (headerTokens h0).length) := by
  constructor
  · intro hbad
    obtain ⟨msg, hmsg⟩ := extractHeadersAux_err files sect.headerRefs [] hbad
    refine ⟨msg, ?_⟩
    simp only [extractHeaderFooterContent, hdoc, hlen, if_false, hsect, hmsg]
  · intro r hok
    simp only [extractHeaderFooterContent, hdoc, hlen, if_false, hsect] at hok
    cases haux : extractHeadersAux files sect.headerRefs [] with
    | error e => simp [haux] at hok
    | ok hs => exact extractHeadersAux_ok files sect.headerRefs [] hs haux

/-- C10, witness: a resolved header with the single token `"Solo"`
makes extraction raise. -/
theorem C10_header_token_precondition_witness :
    (lookupA c1tok docName
        = some (Part.doc ⟨[⟨[⟨"rId1".toList, none⟩], []⟩]⟩)
      ∧ ¬((DocumentXml.mk [⟨[⟨"rId1".toList, none⟩], []⟩]).sects.length < 1)
      ∧ pyGet (DocumentXml.mk [⟨[⟨"rId1".toList, none⟩], []⟩]).sects ((1 : Int) - 1)
          = some ⟨[⟨"rId1".toList, none⟩], []⟩
      ∧ ∃ h0 ∈ resolvedHeaderParts c1tok
          (SectPr.mk [⟨"rId1".toList, none⟩] []).headerRefs,
          (headerTokens h0).length < 2)
    ∧ ∃ msg, extractHeaderFooterContent c1tok 1 = Except.error msg :=
  ⟨⟨by decide, by decide, by decide, by decide⟩,
   (C10_header_token_precondition c1tok 1 ⟨[⟨[⟨"rId1".toList, none⟩], []⟩]⟩
      ⟨[⟨"rId1".toList, none⟩], []⟩ (by decide) (by decide) (by decide)).1
     (by decide)⟩

end DocConv
